import Mathlib

/-!
Shallow embedding of `sublimall/archiver.py` (class `Archiver`).

Python strings are modelled as `List Char`.  The collaborators that the
module imports (`sublime`, `blacklist`, `utils`) are opaque inputs and are
gathered in an `Env` record: the two sublime package paths, the result of
`utils.get_7za_bin()`, the `installed_packages` list read from the Package
Control settings, the two static blacklists, the name produced by
`utils.generate_temp_filename()`, and the process working directory (used
by `os.path.abspath`).  The external archiver process is an oracle
`exec : List PyStr → Int` mapping an argument vector to an exit code.
Python exceptions are modelled with `Except`.
-/

namespace Sublimall

/-- A Python string, as its list of characters. -/
abbrev PyStr := List Char

/-- Character list of a Lean string literal. -/
def str (s : String) : PyStr := s.data

/-! ## `os.path` (posixpath) primitives used by the module -/

/-- `posixpath.isabs`: the path starts with a slash. -/
def isabs : PyStr → Bool
  | '/' :: _ => true
  | _ => false

/-- Python `path.endswith('/')`. -/
def endsWithSlash (p : PyStr) : Bool := p.getLast? == some '/'

/-- `posixpath.join(a, b)` for one extra component `b`. -/
def pjoin (a b : PyStr) : PyStr :=
  if isabs b then b
  else if a = [] ∨ endsWithSlash a then a ++ b
  else a ++ '/' :: b

/-- `posixpath.basename(p)` (also `os.path.split(p)[1]`): the characters
after the last slash. -/
def basename (p : PyStr) : PyStr :=
  (p.reverse.takeWhile (fun c => c != '/')).reverse

/-- Python `p.split('/')`: split on every slash, keeping empty pieces. -/
def splitSlash : PyStr → List PyStr
  | [] => [[]]
  | c :: cs =>
    let r := splitSlash cs
    if c = '/' then [] :: r else (c :: r.headD []) :: r.tail

/-- Python `'/'.join(ws)`. -/
def intercalateSlash : List PyStr → PyStr
  | [] => []
  | [w] => w
  | w :: ws => w ++ '/' :: intercalateSlash ws

/-- The component loop of `posixpath.normpath`: `hs` is the truthiness of
`initial_slashes`, `acc` is `new_comps`. -/
def normLoop (hs : Bool) : List PyStr → List PyStr → List PyStr
  | acc, [] => acc
  | acc, comp :: rest =>
    if comp = [] ∨ comp = ['.'] then normLoop hs acc rest
    else if comp ≠ ['.', '.'] ∨ (hs = false ∧ acc = [])
        ∨ (acc ≠ [] ∧ acc.getLast? = some ['.', '.']) then
      normLoop hs (acc ++ [comp]) rest
    else if acc ≠ [] then normLoop hs acc.dropLast rest
    else normLoop hs acc rest

/-- `posixpath.normpath`. -/
def normpath (p : PyStr) : PyStr :=
  if p = [] then ['.']
  else
    let slashes : Nat :=
      if isabs p then
        if (str "//").isPrefixOf p ∧ ¬ (str "///").isPrefixOf p then 2 else 1
      else 0
    let newComps := normLoop (slashes ≠ 0) [] (splitSlash p)
    let out := List.replicate slashes '/' ++ intercalateSlash newComps
    if out = [] then ['.'] else out

/-- `posixpath.abspath`, with the working directory passed explicitly. -/
def abspath (cwd p : PyStr) : PyStr :=
  normpath (if isabs p then p else pjoin cwd p)

/-! ## The environment: sublime API, utils and blacklist collaborators -/

/-- Opaque collaborators of `Archiver`: `sublime.packages_path()`,
`sublime.installed_packages_path()`, `utils.get_7za_bin()`, the
`installed_packages` setting of Package Control, `blacklist.packages`,
`blacklist.installed_packages`, `utils.generate_temp_filename()`, and the
working directory. -/
structure Env where
  packages_path : PyStr
  installed_packages_path : PyStr
  zip_bin : Option PyStr
  pc_installed_packages : List PyStr
  blacklist_packages : List PyStr
  blacklist_installed_packages : List PyStr
  temp_filename : PyStr
  cwd : PyStr

/-- `self.directory_list`, the dict
`{packages_path(): '', installed_packages_path(): '.sublime-package'}`
with Python dict semantics: if both keys are equal the single entry keeps
the first key and the last value; insertion order is preserved. -/
def directory_list (e : Env) : List (PyStr × PyStr) :=
  if e.installed_packages_path = e.packages_path then
    [(e.packages_path, str ".sublime-package")]
  else
    [(e.packages_path, []), (e.installed_packages_path, str ".sublime-package")]

/-- `self.packages_bak_path = '%s.bak' % sublime.packages_path()`. -/
def packages_bak_path (e : Env) : PyStr := e.packages_path ++ str ".bak"

/-- `self.installed_packages_bak_path`. -/
def installed_packages_bak_path (e : Env) : PyStr :=
  e.installed_packages_path ++ str ".bak"

/-! ## Errors and the 7za binary -/

/-- Python exceptions that the module can raise: a failed `assert`
(`AssertionError`), a generic `Exception(msg)`, and the `NameError` that
would occur if `command_args` were used while never assigned. -/
inductive PyError where
  | assertionError : PyError
  | exn : PyStr → PyError
  | nameError : PyError
deriving DecidableEq, Repr

/-- `Archiver._get_7za_executable`: raise a generic `Exception` when
`get_7za_bin()` returned `None`, else return the path unchanged. -/
def get_7za_executable (zip_bin : Option PyStr) : Except PyError PyStr :=
  match zip_bin with
  | none => .error (.exn (str "Couldn't find 7za binary"))
  | some b => .ok b

/-! ## `_run_executable` -/

/-- The keyword arguments that `_run_executable` inspects; a key absent
from the Python `kwargs` dict is `none`. -/
structure RunKwargs where
  output_filename : Option PyStr
  excluded_dirs : Option (List PyStr)
  input_file : Option PyStr
  output_dir : Option PyStr

/-- `if password is not None: command_args.append('-p%s' % password)`
(lines 78-79 and 88-89). -/
def password_args : Option PyStr → List PyStr
  | some pw => [str "-p" ++ pw]
  | none => []

/-- `Archiver._run_executable(command, password=None, **kwargs)`.
`exec` gives the exit code of `subprocess.Popen(args).wait()`.  On success
the result carries the argument vector handed to the process and its raw
exit code.  The inner value `none` for `command_args` marks the
never-assigned variable; using it raises `NameError`. -/
def run_executable (e : Env) (exec : List PyStr → Int) (command : PyStr)
    (password : Option PyStr) (kwargs : RunKwargs) :
    Except PyError (List PyStr × Int) :=
  if ¬ (command = str "a" ∨ command = str "x") then .error .assertionError
  else
    let build : Except PyError (Option (List PyStr)) :=
      if command = str "a" then
        match kwargs.output_filename with
        | none => .error .assertionError
        | some ofn =>
          match get_7za_executable e.zip_bin with
          | .error err => .error err
          | .ok bin =>
            let args := [bin, command, str "-tzip", str "-y"]
            let args := args ++ password_args password
            let args := args ++ (match kwargs.excluded_dirs with
              | some ds => ds.map (fun d => str "-x!" ++ d ++ ['*'])
              | none => [])
            let args := args ++ [ofn] ++ (directory_list e).map Prod.fst
            .ok (some args)
      else if command = str "x" then
        match kwargs.input_file, kwargs.output_dir with
        | some inf, some od =>
          match get_7za_executable e.zip_bin with
          | .error err => .error err
          | .ok bin =>
            let args := [bin, command, str "-tzip", str "-y", str "-o" ++ od]
            let args := args ++ password_args password
            .ok (some (args ++ [inf]))
        | _, _ => .error .assertionError
      else .ok none
    match build with
    | .error err => .error err
    | .ok none => .error .nameError
    | .ok (some args) => .ok (args, exec args)

/-! ## Exclusion lists and `pack_packages` -/

/-- Python `str.lower` restricted to ASCII letters (the only characters
compared against the literal `'package control'`). -/
def pyLower (s : PyStr) : PyStr := s.map Char.toLower

/-- `Archiver._excludes_from_package_control`: one entry per installed
package (skipping Package Control itself, case-insensitively) and per
`directory_list` item, `os.path.join(os.path.split(directory)[1],
package_name) + suffix`. -/
def excludes_from_package_control (e : Env) : List PyStr :=
  (e.pc_installed_packages.filter
      (fun pn => pyLower pn ≠ str "package control")).flatMap
    (fun pn => (directory_list e).map
      (fun ds => pjoin (basename ds.1) pn ++ ds.2))

/-- Lines 146-160 of `pack_packages`: the `excluded_dirs` value stored
back into `kwargs` before `_run_executable('a', ...)` is invoked. -/
def pack_excluded_dirs (e : Env) (backup exclude_from_package_control : Bool)
    (kw_excluded_dirs : Option (List PyStr)) : List PyStr :=
  let excluded := kw_excluded_dirs.getD []
  let packages_root_path := basename e.packages_path
  let installed_packages_root_path := basename e.installed_packages_path
  let excluded := excluded ++
    e.blacklist_packages.map (fun p => pjoin packages_root_path p)
  let excluded := excluded ++
    e.blacklist_installed_packages.map
      (fun p => pjoin installed_packages_root_path p)
  if exclude_from_package_control ∧ ¬ backup then
    excluded ++ excludes_from_package_control e
  else excluded

/-- `Archiver.pack_packages`: build the exclusion list, fill in a
temporary output filename when the caller gave none, run the archiver,
and return `kwargs['output_filename']`.  The `.ok` value carries the
argument vector, the (discarded) exit code, and the Python return value. -/
def pack_packages (e : Env) (exec : List PyStr → Int) (password : Option PyStr)
    (backup exclude_from_package_control : Bool) (kwargs : RunKwargs) :
    Except PyError (List PyStr × Int × PyStr) :=
  let excluded := pack_excluded_dirs e backup exclude_from_package_control
    kwargs.excluded_dirs
  let output_filename := kwargs.output_filename.getD e.temp_filename
  match run_executable e exec (str "a") password
      ⟨some output_filename, some excluded, kwargs.input_file, kwargs.output_dir⟩ with
  | .error err => .error err
  | .ok (args, code) => .ok (args, code, output_filename)

/-! ## `unpack_packages` -/

/-- `Archiver._get_output_dir`:
`os.path.abspath(os.path.join(list(self.directory_list)[0], os.pardir))`. -/
def get_output_dir (e : Env) : PyStr :=
  abspath e.cwd (pjoin (((directory_list e).map Prod.fst).headD []) (str ".."))

/-- `Archiver.unpack_packages(input_file, output_dir=None, password=None)`.
The Python function falls off its end, so the returned value (third
component) is `None`, modelled as `none`. -/
def unpack_packages (e : Env) (exec : List PyStr → Int) (input_file : PyStr)
    (output_dir : Option PyStr) (password : Option PyStr) :
    Except PyError (List PyStr × Int × Option PyStr) :=
  let od := match output_dir with
    | none => get_output_dir e
    | some d => d
  match run_executable e exec (str "x") password ⟨none, none, some input_file, some od⟩ with
  | .error err => .error err
  | .ok (args, code) => .ok (args, code, none)

/-! ## Filesystem model and the backup operations -/

/-- The filesystem: each path either holds a directory tree (named by a
content tag) or does not exist. -/
def FS := PyStr → Option Nat

/-- `Archiver._safe_rmtree`: remove the tree when the path exists;
`ignore_errors=True` means a failed removal (oracle `ok = false`) is
silent and leaves the tree in place. -/
def safe_rmtree (ok : Bool) (fs : FS) (dir : PyStr) : FS :=
  if (fs dir).isSome ∧ ok then fun q => if q = dir then none else fs q else fs

/-- `Archiver._safe_copy`: copy only when the destination does not exist;
`shutil.copytree` raises `FileNotFoundError` when the source is absent. -/
def safe_copy (fs : FS) (source destination : PyStr) : Except PyError FS :=
  if (fs destination).isSome then .ok fs
  else match fs source with
    | none => .error (.exn (str "FileNotFoundError"))
    | some v => .ok (fun q => if q = destination then some v else fs q)

/-- `Archiver.remove_backup_dirs`: `_safe_rmtree` on the packages backup
path, then on the installed-packages backup path; `ok1`, `ok2` are the
removal-success oracles. -/
def remove_backup_dirs (e : Env) (ok1 ok2 : Bool) (fs : FS) : FS :=
  safe_rmtree ok2 (safe_rmtree ok1 fs (packages_bak_path e))
    (installed_packages_bak_path e)

/-- `Archiver.move_packages_to_backup_dirs`: remove both backups, then
copy the installed-packages directory, then the packages directory, each
to its `.bak` path. -/
def move_packages_to_backup_dirs (e : Env) (ok1 ok2 : Bool) (fs : FS) :
    Except PyError FS :=
  let fs1 := remove_backup_dirs e ok1 ok2 fs
  match safe_copy fs1 e.installed_packages_path (installed_packages_bak_path e) with
  | .error err => .error err
  | .ok fs2 => safe_copy fs2 e.packages_path (packages_bak_path e)

end Sublimall

namespace Sublimall

/-! ## Concrete sample data (used to instantiate the theorems below) -/

/-- A concrete environment: the usual sublime layout, a 7za binary, one
ordinary Package Control package plus Package Control itself. -/
def sampleEnv : Env :=
  ⟨str "/home/u/Packages", str "/home/u/Installed Packages",
   some (str "/opt/7za"), [str "Alpha", str "Package Control"],
   [str "User"], [str "Zed.sublime-package"],
   str "/tmp/sublimall.zip", str "/cwd"⟩

/-- A concrete filesystem: both package directories exist and a stale
packages backup is present. -/
def sampleFS : FS := fun q =>
  if q = str "/home/u/Packages" then some 1
  else if q = str "/home/u/Installed Packages" then some 2
  else if q = str "/home/u/Packages.bak" then some 3
  else none

/-- Keyword arguments of a pack call with an explicit output filename. -/
def samplePackKwargs : RunKwargs :=
  ⟨some (str "/tmp/out.zip"), some [str "Packages/User"], none, none⟩

/-- Keyword arguments of an extract call. -/
def sampleUnpackKwargs : RunKwargs :=
  ⟨none, none, some (str "/tmp/in.zip"), some (str "/home/u")⟩

/-- An archiver oracle that always exits with code 0. -/
def sampleExec : List PyStr → Int := fun _ => 0

end Sublimall

namespace Sublimall

/-! ## Helper lemmas about `_run_executable` -/

theorem run_executable_a (e : Env) (exec : List PyStr → Int)
    (password : Option PyStr) (kwargs : RunKwargs) (bin ofn : PyStr)
    (hbin : e.zip_bin = some bin) (hofn : kwargs.output_filename = some ofn) :
    run_executable e exec (str "a") password kwargs =
      .ok ([bin, str "a", str "-tzip", str "-y"] ++ password_args password
          ++ (kwargs.excluded_dirs.getD []).map (fun d => str "-x!" ++ d ++ ['*'])
          ++ [ofn] ++ (directory_list e).map Prod.fst,
        exec ([bin, str "a", str "-tzip", str "-y"] ++ password_args password
          ++ (kwargs.excluded_dirs.getD []).map (fun d => str "-x!" ++ d ++ ['*'])
          ++ [ofn] ++ (directory_list e).map Prod.fst)) := by
  obtain ⟨o, ex, i, od⟩ := kwargs
  simp only [RunKwargs.output_filename] at hofn
  subst hofn
  cases ex <;>
    simp [run_executable, hbin, get_7za_executable, str]

theorem run_executable_x (e : Env) (exec : List PyStr → Int)
    (password : Option PyStr) (kwargs : RunKwargs) (bin inf od : PyStr)
    (hbin : e.zip_bin = some bin) (hin : kwargs.input_file = some inf)
    (hod : kwargs.output_dir = some od) :
    run_executable e exec (str "x") password kwargs =
      .ok ([bin, str "x", str "-tzip", str "-y", str "-o" ++ od]
          ++ password_args password ++ [inf],
        exec ([bin, str "x", str "-tzip", str "-y", str "-o" ++ od]
          ++ password_args password ++ [inf])) := by
  obtain ⟨o, ex, i, odir⟩ := kwargs
  simp only [RunKwargs.input_file, RunKwargs.output_dir] at hin hod
  subst hin; subst hod
  simp [run_executable, hbin, get_7za_executable, str]

theorem pack_excluded_dirs_eq (e : Env) (backup epc : Bool)
    (kd : Option (List PyStr)) :
    pack_excluded_dirs e backup epc kd =
      kd.getD []
      ++ e.blacklist_packages.map (fun p => pjoin (basename e.packages_path) p)
      ++ e.blacklist_installed_packages.map
          (fun p => pjoin (basename e.installed_packages_path) p)
      ++ (if epc ∧ ¬ backup then excludes_from_package_control e else []) := by
  simp only [pack_excluded_dirs]
  split <;> simp [List.append_assoc]

/-! ## Claim theorems -/

/-- C1: for every `pack_packages` call the exclusion list handed to the
external archiver is: the caller-supplied `excluded_dirs` (empty when the
caller gave none), then one entry per `blacklist.packages` name joined
under the basename of the packages path, then one entry per
`blacklist.installed_packages` name joined under the basename of the
installed-packages path, then the Package Control exclusions exactly when
`exclude_from_package_control` is true and `backup` is false. -/
theorem pack_packages_exclusion_list (e : Env) (exec : List PyStr → Int)
    (password : Option PyStr) (backup epc : Bool) (kwargs : RunKwargs)
    (bin : PyStr) (hbin : e.zip_bin = some bin) :
    pack_packages e exec password backup epc kwargs =
      .ok ([bin, str "a", str "-tzip", str "-y"] ++ password_args password
        ++ ((kwargs.excluded_dirs.getD []
            ++ e.blacklist_packages.map (fun p => pjoin (basename e.packages_path) p)
            ++ e.blacklist_installed_packages.map
                (fun p => pjoin (basename e.installed_packages_path) p)
            ++ (if epc ∧ ¬ backup then excludes_from_package_control e else [])).map
              (fun d => str "-x!" ++ d ++ ['*']))
        ++ [kwargs.output_filename.getD e.temp_filename]
        ++ (directory_list e).map Prod.fst,
        exec ([bin, str "a", str "-tzip", str "-y"] ++ password_args password
        ++ ((kwargs.excluded_dirs.getD []
            ++ e.blacklist_packages.map (fun p => pjoin (basename e.packages_path) p)
            ++ e.blacklist_installed_packages.map
                (fun p => pjoin (basename e.installed_packages_path) p)
            ++ (if epc ∧ ¬ backup then excludes_from_package_control e else [])).map
              (fun d => str "-x!" ++ d ++ ['*']))
        ++ [kwargs.output_filename.getD e.temp_filename]
        ++ (directory_list e).map Prod.fst),
        kwargs.output_filename.getD e.temp_filename) := by
  simp only [pack_packages]
  rw [run_executable_a e exec password _ bin _ hbin rfl]
  simp only [Option.getD_some, pack_excluded_dirs_eq]

/-- C1 witness: the theorem instantiated on the sample environment. -/
theorem pack_packages_exclusion_list_witness :
    pack_packages sampleEnv sampleExec none false true samplePackKwargs =
      .ok ([str "/opt/7za", str "a", str "-tzip", str "-y"] ++ password_args none
        ++ ((samplePackKwargs.excluded_dirs.getD []
            ++ sampleEnv.blacklist_packages.map
                (fun p => pjoin (basename sampleEnv.packages_path) p)
            ++ sampleEnv.blacklist_installed_packages.map
                (fun p => pjoin (basename sampleEnv.installed_packages_path) p)
            ++ (if true ∧ ¬ false then excludes_from_package_control sampleEnv
                else [])).map (fun d => str "-x!" ++ d ++ ['*']))
        ++ [samplePackKwargs.output_filename.getD sampleEnv.temp_filename]
        ++ (directory_list sampleEnv).map Prod.fst,
        sampleExec ([str "/opt/7za", str "a", str "-tzip", str "-y"] ++ password_args none
        ++ ((samplePackKwargs.excluded_dirs.getD []
            ++ sampleEnv.blacklist_packages.map
                (fun p => pjoin (basename sampleEnv.packages_path) p)
            ++ sampleEnv.blacklist_installed_packages.map
                (fun p => pjoin (basename sampleEnv.installed_packages_path) p)
            ++ (if true ∧ ¬ false then excludes_from_package_control sampleEnv
                else [])).map (fun d => str "-x!" ++ d ++ ['*']))
        ++ [samplePackKwargs.output_filename.getD sampleEnv.temp_filename]
        ++ (directory_list sampleEnv).map Prod.fst),
        samplePackKwargs.output_filename.getD sampleEnv.temp_filename) :=
  pack_packages_exclusion_list sampleEnv sampleExec none false true
    samplePackKwargs (str "/opt/7za") rfl

end Sublimall

namespace Sublimall

theorem pack_packages_no_bin (e : Env) (exec : List PyStr → Int)
    (password : Option PyStr) (backup epc : Bool) (kwargs : RunKwargs)
    (hz : e.zip_bin = none) :
    pack_packages e exec password backup epc kwargs =
      .error (.exn (str "Couldn't find 7za binary")) := by
  simp [pack_packages, run_executable, get_7za_executable, hz, str]

/-- C2: the value `pack_packages` returns is the output filename used for
the archive: the caller's `output_filename` when one was supplied,
otherwise the generated temporary filename; the returned name occurs in
the argument vector handed to the archiver; and the returned name is the
same for any two archiver oracles, so it does not depend on the exit
code. -/
theorem pack_packages_returns_filename (e : Env)
    (exec exec2 : List PyStr → Int) (password : Option PyStr)
    (backup epc : Bool) (kwargs : RunKwargs) :
    (∀ args code ofn,
      pack_packages e exec password backup epc kwargs = .ok (args, code, ofn) →
      ofn = kwargs.output_filename.getD e.temp_filename ∧ ofn ∈ args) ∧
    (∀ args code ofn args2 code2 ofn2,
      pack_packages e exec password backup epc kwargs = .ok (args, code, ofn) →
      pack_packages e exec2 password backup epc kwargs = .ok (args2, code2, ofn2) →
      ofn = ofn2) := by
  cases hz : e.zip_bin with
  | none =>
    constructor
    · intro args code ofn h
      rw [pack_packages_no_bin e exec password backup epc kwargs hz] at h
      exact Except.noConfusion h
    · intro args code ofn args2 code2 ofn2 h h2
      rw [pack_packages_no_bin e exec password backup epc kwargs hz] at h
      exact Except.noConfusion h
  | some bin =>
    have key : ∀ ex : List PyStr → Int, ∀ args code ofn,
        pack_packages e ex password backup epc kwargs = .ok (args, code, ofn) →
        ofn = kwargs.output_filename.getD e.temp_filename ∧ ofn ∈ args := by
      intro ex args code ofn h
      simp only [pack_packages] at h
      rw [run_executable_a e ex password _ bin _ hz rfl] at h
      simp only [Except.ok.injEq, Prod.mk.injEq] at h
      obtain ⟨h1, _, h3⟩ := h
      subst h3; subst h1
      exact ⟨rfl, by simp⟩
    constructor
    · exact key exec
    · intro args code ofn args2 code2 ofn2 h h2
      rw [(key exec args code ofn h).1, (key exec2 args2 code2 ofn2 h2).1]

/-- C2 witness: a concrete pack call returns `/tmp/out.zip`, which occurs
in the archiver's argument vector. -/
theorem pack_packages_returns_filename_witness :
    str "/tmp/out.zip" = samplePackKwargs.output_filename.getD sampleEnv.temp_filename ∧
    str "/tmp/out.zip" ∈
      ([str "/opt/7za", str "a", str "-tzip", str "-y"] ++ password_args none
        ++ ((samplePackKwargs.excluded_dirs.getD []
            ++ sampleEnv.blacklist_packages.map
                (fun p => pjoin (basename sampleEnv.packages_path) p)
            ++ sampleEnv.blacklist_installed_packages.map
                (fun p => pjoin (basename sampleEnv.installed_packages_path) p)
            ++ excludes_from_package_control sampleEnv).map
              (fun d => str "-x!" ++ d ++ ['*']))
        ++ [str "/tmp/out.zip"] ++ (directory_list sampleEnv).map Prod.fst) :=
  (pack_packages_returns_filename sampleEnv sampleExec sampleExec none false
      true samplePackKwargs).1 _ 0 (str "/tmp/out.zip") rfl

/-- C3: every pack invocation assembles, in this order: the archiver
binary path, 'a', '-tzip', '-y', the '-p<password>' flag exactly when a
password was given, one '-x!<dir>*' argument per excluded directory in
list order, the output filename, and the two package directory paths. -/
theorem run_executable_pack_command_line (e : Env) (exec : List PyStr → Int)
    (password : Option PyStr) (kwargs : RunKwargs) (bin ofn : PyStr)
    (hbin : e.zip_bin = some bin) (hofn : kwargs.output_filename = some ofn)
    (hne : e.packages_path ≠ e.installed_packages_path) :
    run_executable e exec (str "a") password kwargs =
      .ok ([bin, str "a", str "-tzip", str "-y"] ++ password_args password
          ++ (kwargs.excluded_dirs.getD []).map (fun d => str "-x!" ++ d ++ ['*'])
          ++ [ofn] ++ [e.packages_path, e.installed_packages_path],
        exec ([bin, str "a", str "-tzip", str "-y"] ++ password_args password
          ++ (kwargs.excluded_dirs.getD []).map (fun d => str "-x!" ++ d ++ ['*'])
          ++ [ofn] ++ [e.packages_path, e.installed_packages_path])) := by
  rw [run_executable_a e exec password kwargs bin ofn hbin hofn]
  simp only [directory_list, if_neg (Ne.symm hne), List.map_cons, List.map_nil]

/-- C3 witness: the theorem instantiated on the sample environment with a
password. -/
theorem run_executable_pack_command_line_witness :
    run_executable sampleEnv sampleExec (str "a") (some (str "s3cret"))
        samplePackKwargs =
      .ok ([str "/opt/7za", str "a", str "-tzip", str "-y"]
          ++ password_args (some (str "s3cret"))
          ++ (samplePackKwargs.excluded_dirs.getD []).map
              (fun d => str "-x!" ++ d ++ ['*'])
          ++ [str "/tmp/out.zip"]
          ++ [sampleEnv.packages_path, sampleEnv.installed_packages_path],
        sampleExec ([str "/opt/7za", str "a", str "-tzip", str "-y"]
          ++ password_args (some (str "s3cret"))
          ++ (samplePackKwargs.excluded_dirs.getD []).map
              (fun d => str "-x!" ++ d ++ ['*'])
          ++ [str "/tmp/out.zip"]
          ++ [sampleEnv.packages_path, sampleEnv.installed_packages_path])) :=
  run_executable_pack_command_line sampleEnv sampleExec (some (str "s3cret"))
    samplePackKwargs (str "/opt/7za") (str "/tmp/out.zip") rfl rfl (by decide)

end Sublimall

namespace Sublimall

/-- C5: `_run_executable` returns the raw exit code of the external
process (whenever it returns, the code is exactly the oracle's value on
the assembled argument vector); `pack_packages` discards it and returns
the output filename whatever the code; `unpack_packages` discards it and
returns nothing (`None`), for every exit code value. -/
theorem exit_code_raw_and_discarded (e : Env) (exec : List PyStr → Int) :
    (∀ command password kwargs args code,
      run_executable e exec command password kwargs = .ok (args, code) →
      code = exec args) ∧
    (∀ password backup epc kwargs args code ofn,
      pack_packages e exec password backup epc kwargs = .ok (args, code, ofn) →
      ofn = kwargs.output_filename.getD e.temp_filename) ∧
    (∀ input_file output_dir password args code ret,
      unpack_packages e exec input_file output_dir password = .ok (args, code, ret) →
      ret = none) := by
  refine ⟨?_, ?_, ?_⟩
  · intro command password kwargs args code h
    simp only [run_executable] at h
    split at h
    · exact Except.noConfusion h
    · split at h
      · exact Except.noConfusion h
      · exact Except.noConfusion h
      · simp only [Except.ok.injEq, Prod.mk.injEq] at h
        obtain ⟨h1, h2⟩ := h
        subst h1
        exact h2.symm
  · intro password backup epc kwargs args code ofn h
    cases hz : e.zip_bin with
    | none =>
      rw [pack_packages_no_bin e exec password backup epc kwargs hz] at h
      exact Except.noConfusion h
    | some bin =>
      simp only [pack_packages] at h
      rw [run_executable_a e exec password _ bin _ hz rfl] at h
      simp only [Except.ok.injEq, Prod.mk.injEq] at h
      exact h.2.2.symm
  · intro input_file output_dir password args code ret h
    cases hz : e.zip_bin with
    | none =>
      simp [unpack_packages, run_executable, get_7za_executable, hz, str] at h
    | some bin =>
      simp only [unpack_packages] at h
      rw [run_executable_x e exec password _ bin input_file _ hz rfl rfl] at h
      simp only [Except.ok.injEq, Prod.mk.injEq] at h
      exact h.2.2.symm

/-- C5 witness: a concrete run returns the oracle's exit code, and a
concrete pack call returns its output filename. -/
theorem exit_code_raw_and_discarded_witness :
    ((0 : Int) = sampleExec ([str "/opt/7za", str "a", str "-tzip", str "-y"]
        ++ password_args none
        ++ (samplePackKwargs.excluded_dirs.getD []).map
            (fun d => str "-x!" ++ d ++ ['*'])
        ++ [str "/tmp/out.zip"] ++ (directory_list sampleEnv).map Prod.fst)) ∧
    str "/tmp/out.zip" = samplePackKwargs.output_filename.getD sampleEnv.temp_filename :=
  ⟨(exit_code_raw_and_discarded sampleEnv sampleExec).1 (str "a") none
      samplePackKwargs _ 0 rfl,
    ((exit_code_raw_and_discarded sampleEnv sampleExec).2.1 none false true
      samplePackKwargs _ 0 (str "/tmp/out.zip") rfl)⟩

/-- C6: `_get_7za_executable` raises a generic `Exception` exactly when
`get_7za_bin()` returned `None`; when a binary was found it returns that
path unchanged and raises nothing. -/
theorem get_7za_executable_spec (zb : Option PyStr) :
    ((∃ msg, get_7za_executable zb = .error (.exn msg)) ↔ zb = none) ∧
    ∀ b, zb = some b → get_7za_executable zb = .ok b := by
  cases zb <;> simp [get_7za_executable]

/-- C6 witness: on a found binary the path comes back unchanged. -/
theorem get_7za_executable_spec_witness :
    get_7za_executable (some (str "/opt/7za")) = .ok (str "/opt/7za") :=
  (get_7za_executable_spec (some (str "/opt/7za"))).2 (str "/opt/7za") rfl

end Sublimall

namespace Sublimall

/-- C8: `_run_executable` is defined only for commands 'a' (needing
`output_filename` among the keyword arguments) and 'x' (needing both
`input_file` and `output_dir`); under these preconditions no assertion
fails, and the command-argument list is always constructed — the
never-assigned branch (modelled as `NameError`) is unreachable for every
command — while any other command value fails the initial assertion, and
a missing required keyword fails the corresponding assertion. -/
theorem run_executable_preconditions (e : Env) (exec : List PyStr → Int)
    (password : Option PyStr) (kwargs : RunKwargs) :
    (∀ command, command ≠ str "a" → command ≠ str "x" →
      run_executable e exec command password kwargs = .error .assertionError) ∧
    (kwargs.output_filename = none →
      run_executable e exec (str "a") password kwargs = .error .assertionError) ∧
    ((kwargs.input_file = none ∨ kwargs.output_dir = none) →
      run_executable e exec (str "x") password kwargs = .error .assertionError) ∧
    (kwargs.output_filename.isSome →
      run_executable e exec (str "a") password kwargs ≠ .error .assertionError) ∧
    (kwargs.input_file.isSome → kwargs.output_dir.isSome →
      run_executable e exec (str "x") password kwargs ≠ .error .assertionError) ∧
    (∀ command, run_executable e exec command password kwargs ≠ .error .nameError) := by
  obtain ⟨o, ex, i, od⟩ := kwargs
  refine ⟨?_, ?_, ?_, ?_, ?_, ?_⟩
  · intro command h1 h2
    simp [run_executable, h1, h2]
  · intro h
    simp only [RunKwargs.output_filename] at h
    subst h
    simp [run_executable, str]
  · intro h
    simp only [RunKwargs.input_file, RunKwargs.output_dir] at h
    rcases h with h | h <;> subst h
    · simp [run_executable, str]
    · cases i <;> simp [run_executable, str]
  · intro h
    simp only [RunKwargs.output_filename, Option.isSome_iff_exists] at h
    obtain ⟨ofn, ho⟩ := h
    subst ho
    cases hz : e.zip_bin with
    | none => simp [run_executable, get_7za_executable, hz, str]
    | some bin =>
      rw [run_executable_a e exec password ⟨some ofn, ex, i, od⟩ bin ofn hz rfl]
      simp
  · intro h1 h2
    simp only [RunKwargs.input_file, RunKwargs.output_dir,
      Option.isSome_iff_exists] at h1 h2
    obtain ⟨inf, hi⟩ := h1
    obtain ⟨odir, ho⟩ := h2
    subst hi; subst ho
    cases hz : e.zip_bin with
    | none => simp [run_executable, get_7za_executable, hz, str]
    | some bin =>
      rw [run_executable_x e exec password ⟨o, ex, some inf, some odir⟩ bin
        inf odir hz rfl rfl]
      simp
  · intro command
    by_cases ha : command = str "a"
    · subst ha
      cases o with
      | none => simp [run_executable, str]
      | some ofn =>
        cases hz : e.zip_bin with
        | none => simp [run_executable, get_7za_executable, hz, str]
        | some bin =>
          rw [run_executable_a e exec password ⟨some ofn, ex, i, od⟩ bin ofn hz rfl]
          simp
    · by_cases hx : command = str "x"
      · subst hx
        cases i with
        | none => simp [run_executable, str]
        | some inf =>
          cases od with
          | none => simp [run_executable, str]
          | some odir =>
            cases hz : e.zip_bin with
            | none => simp [run_executable, get_7za_executable, hz, str]
            | some bin =>
              rw [run_executable_x e exec password ⟨o, ex, some inf, some odir⟩
                bin inf odir hz rfl rfl]
              simp
      · simp [run_executable, ha, hx]

/-- C8 witness: an unknown command fails the initial assertion, and the
sample pack call does not fail any assertion. -/
theorem run_executable_preconditions_witness :
    run_executable sampleEnv sampleExec (str "q") none samplePackKwargs =
        .error .assertionError ∧
    run_executable sampleEnv sampleExec (str "a") none samplePackKwargs ≠
        .error .assertionError :=
  ⟨(run_executable_preconditions sampleEnv sampleExec none samplePackKwargs).1
      (str "q") (by decide) (by decide),
    (run_executable_preconditions sampleEnv sampleExec none
      samplePackKwargs).2.2.2.1 rfl⟩

/-- C10: in both pack and unpack invocations the password block of the
command line is exactly `password_args password`, and that block is empty
only for `None`: any other value, the empty string included, yields a
single `-p<password>` argument (so the empty string gives a bare `-p`). -/
theorem password_flag_spec (e : Env) (exec : List PyStr → Int)
    (kwargs kwargs2 : RunKwargs) (bin ofn inf od : PyStr)
    (hbin : e.zip_bin = some bin) (hofn : kwargs.output_filename = some ofn)
    (hin : kwargs2.input_file = some inf) (hod : kwargs2.output_dir = some od) :
    (∀ password, run_executable e exec (str "a") password kwargs =
      .ok ([bin, str "a", str "-tzip", str "-y"] ++ password_args password
          ++ (kwargs.excluded_dirs.getD []).map (fun d => str "-x!" ++ d ++ ['*'])
          ++ [ofn] ++ (directory_list e).map Prod.fst,
        exec ([bin, str "a", str "-tzip", str "-y"] ++ password_args password
          ++ (kwargs.excluded_dirs.getD []).map (fun d => str "-x!" ++ d ++ ['*'])
          ++ [ofn] ++ (directory_list e).map Prod.fst))) ∧
    (∀ password, run_executable e exec (str "x") password kwargs2 =
      .ok ([bin, str "x", str "-tzip", str "-y", str "-o" ++ od]
          ++ password_args password ++ [inf],
        exec ([bin, str "x", str "-tzip", str "-y", str "-o" ++ od]
          ++ password_args password ++ [inf]))) ∧
    password_args none = [] ∧
    (∀ pw, password_args (some pw) = [str "-p" ++ pw]) ∧
    password_args (some (str "")) = [str "-p"] := by
  refine ⟨?_, ?_, rfl, fun pw => rfl, ?_⟩
  · intro password
    exact run_executable_a e exec password kwargs bin ofn hbin hofn
  · intro password
    exact run_executable_x e exec password kwargs2 bin inf od hbin hin hod
  · simp [password_args, str]

/-- C10 witness: the empty-string password yields a bare `-p` argument. -/
theorem password_flag_spec_witness :
    password_args (some (str "")) = [str "-p"] :=
  (password_flag_spec sampleEnv sampleExec samplePackKwargs sampleUnpackKwargs
    (str "/opt/7za") (str "/tmp/out.zip") (str "/tmp/in.zip") (str "/home/u")
    rfl rfl rfl rfl).2.2.2.2

end Sublimall

namespace Sublimall

theorem length_flatMap_pair {α β : Type} (l : List α) (f g : α → β) :
    (l.flatMap (fun x => [f x, g x])).length = 2 * l.length := by
  induction l with
  | nil => rfl
  | cons x xs ih =>
    rw [List.flatMap_cons, List.length_append, ih]
    simp only [List.length_cons, List.length_nil, List.length_cons]
    omega

/-- C9: the Package Control exclusion list is exactly, for each installed
package whose lowercased name is not 'package control', the pair of
entries `<basename of packages path>/<name>` (no suffix) and
`<basename of installed-packages path>/<name>.sublime-package`, in
settings order; hence its length is twice the number of retained names,
and packages named 'Package Control' in any letter case contribute no
entry. -/
theorem excludes_from_package_control_spec (e : Env)
    (hne : e.packages_path ≠ e.installed_packages_path) :
    excludes_from_package_control e =
      (e.pc_installed_packages.filter
          (fun pn => pyLower pn ≠ str "package control")).flatMap
        (fun pn => [pjoin (basename e.packages_path) pn,
          pjoin (basename e.installed_packages_path) pn ++ str ".sublime-package"]) ∧
    (excludes_from_package_control e).length =
      2 * (e.pc_installed_packages.filter
          (fun pn => pyLower pn ≠ str "package control")).length := by
  have h1 : excludes_from_package_control e =
      (e.pc_installed_packages.filter
          (fun pn => pyLower pn ≠ str "package control")).flatMap
        (fun pn => [pjoin (basename e.packages_path) pn,
          pjoin (basename e.installed_packages_path) pn ++ str ".sublime-package"]) := by
    simp only [excludes_from_package_control, directory_list,
      if_neg (Ne.symm hne), List.map_cons, List.map_nil]
    simp
  exact ⟨h1, by rw [h1, length_flatMap_pair]⟩

/-- C9 witness: on the sample environment, 'Package Control' is dropped
and 'Alpha' yields exactly its two entries. -/
theorem excludes_from_package_control_spec_witness :
    excludes_from_package_control sampleEnv =
      (sampleEnv.pc_installed_packages.filter
          (fun pn => pyLower pn ≠ str "package control")).flatMap
        (fun pn => [pjoin (basename sampleEnv.packages_path) pn,
          pjoin (basename sampleEnv.installed_packages_path) pn
            ++ str ".sublime-package"]) ∧
    (excludes_from_package_control sampleEnv).length =
      2 * (sampleEnv.pc_installed_packages.filter
          (fun pn => pyLower pn ≠ str "package control")).length :=
  excludes_from_package_control_spec sampleEnv (by decide)

end Sublimall

namespace Sublimall

theorem safe_rmtree_at (ok : Bool) (fs : FS) (dir : PyStr) :
    safe_rmtree ok fs dir dir =
      if (fs dir).isSome = true ∧ ok = true then none else fs dir := by
  by_cases h : (fs dir).isSome = true ∧ ok = true
  · simp [safe_rmtree, h]
  · simp [safe_rmtree, h]

theorem safe_rmtree_ne (ok : Bool) (fs : FS) (dir q : PyStr) (h : q ≠ dir) :
    safe_rmtree ok fs dir q = fs q := by
  by_cases hc : (fs dir).isSome = true ∧ ok = true
  · simp [safe_rmtree, hc, h]
  · simp [safe_rmtree, hc]

theorem safe_copy_ok (fs : FS) (src dst : PyStr) (h : (fs src).isSome) :
    ∃ fs2, safe_copy fs src dst = .ok fs2 ∧
      fs2 dst = (if (fs dst).isSome = true then fs dst else fs src) ∧
      ∀ q, q ≠ dst → fs2 q = fs q := by
  by_cases hd : (fs dst).isSome = true
  · exact ⟨fs, by simp [safe_copy, hd], by simp [hd], fun q _ => rfl⟩
  · obtain ⟨v, hv⟩ := Option.isSome_iff_exists.mp h
    refine ⟨fun q => if q = dst then some v else fs q, ?_, ?_, ?_⟩
    · simp [safe_copy, hd, hv]
    · simp [hd, hv]
    · intro q hq
      simp [hq]

/-- C4: `move_packages_to_backup_dirs` first removes any prior backup of
both directories (removal errors are swallowed, and nothing happens when
a backup does not exist), then copies the installed-packages directory
and the packages directory to their `.bak` paths; each copy happens only
when the destination is absent at copy time (it still exists exactly when
its removal failed), an already-existing destination is left unchanged,
and no other path is touched. -/
theorem move_packages_to_backup_dirs_spec (e : Env) (ok1 ok2 : Bool) (fs : FS)
    (hne : e.packages_path ≠ e.installed_packages_path)
    (h1 : e.installed_packages_path ≠ packages_bak_path e)
    (h2 : e.packages_path ≠ installed_packages_bak_path e)
    (hsp : (fs e.packages_path).isSome)
    (hsi : (fs e.installed_packages_path).isSome) :
    ∃ fs2, move_packages_to_backup_dirs e ok1 ok2 fs = .ok fs2 ∧
      fs2 (packages_bak_path e) =
        (if (fs (packages_bak_path e)).isSome = true ∧ ok1 = false
         then fs (packages_bak_path e) else fs e.packages_path) ∧
      fs2 (installed_packages_bak_path e) =
        (if (fs (installed_packages_bak_path e)).isSome = true ∧ ok2 = false
         then fs (installed_packages_bak_path e)
         else fs e.installed_packages_path) ∧
      ∀ q, q ≠ packages_bak_path e → q ≠ installed_packages_bak_path e →
        fs2 q = fs q := by
  have hpbib : packages_bak_path e ≠ installed_packages_bak_path e :=
    fun h => hne (List.append_cancel_right h)
  have hppb : e.packages_path ≠ packages_bak_path e := by
    intro h
    rw [packages_bak_path] at h
    exact absurd (List.self_eq_append_right.mp h) (by decide)
  have hipib : e.installed_packages_path ≠ installed_packages_bak_path e := by
    intro h
    rw [installed_packages_bak_path] at h
    exact absurd (List.self_eq_append_right.mp h) (by decide)
  have f1ip : remove_backup_dirs e ok1 ok2 fs e.installed_packages_path =
      fs e.installed_packages_path := by
    unfold remove_backup_dirs
    rw [safe_rmtree_ne _ _ _ _ hipib, safe_rmtree_ne _ _ _ _ h1]
  have f1pp : remove_backup_dirs e ok1 ok2 fs e.packages_path =
      fs e.packages_path := by
    unfold remove_backup_dirs
    rw [safe_rmtree_ne _ _ _ _ h2, safe_rmtree_ne _ _ _ _ hppb]
  have f1pb : remove_backup_dirs e ok1 ok2 fs (packages_bak_path e) =
      (if (fs (packages_bak_path e)).isSome = true ∧ ok1 = true then none
       else fs (packages_bak_path e)) := by
    unfold remove_backup_dirs
    rw [safe_rmtree_ne _ _ _ _ hpbib, safe_rmtree_at]
  have f1ib : remove_backup_dirs e ok1 ok2 fs (installed_packages_bak_path e) =
      (if (fs (installed_packages_bak_path e)).isSome = true ∧ ok2 = true then none
       else fs (installed_packages_bak_path e)) := by
    unfold remove_backup_dirs
    rw [safe_rmtree_at, safe_rmtree_ne _ _ _ _ (Ne.symm hpbib)]
  obtain ⟨fsA, hA, hAdst, hAoth⟩ := safe_copy_ok (remove_backup_dirs e ok1 ok2 fs)
    e.installed_packages_path (installed_packages_bak_path e)
    (by rw [f1ip]; exact hsi)
  obtain ⟨fsB, hB, hBdst, hBoth⟩ := safe_copy_ok fsA
    e.packages_path (packages_bak_path e)
    (by rw [hAoth _ h2, f1pp]; exact hsp)
  refine ⟨fsB, ?_, ?_, ?_, ?_⟩
  · simp only [move_packages_to_backup_dirs]
    rw [hA]
    exact hB
  · rw [hBdst, hAoth _ hpbib, hAoth _ h2, f1pb, f1pp]
    by_cases hb : (fs (packages_bak_path e)).isSome = true
    · cases ok1 <;> simp [hb]
    · simp [hb]
  · rw [hBoth _ (Ne.symm hpbib), hAdst, f1ib, f1ip]
    by_cases hb : (fs (installed_packages_bak_path e)).isSome = true
    · cases ok2 <;> simp [hb]
    · simp [hb]
  · intro q hqpb hqib
    rw [hBoth _ hqpb, hAoth _ hqib]
    unfold remove_backup_dirs
    rw [safe_rmtree_ne _ _ _ _ hqib, safe_rmtree_ne _ _ _ _ hqpb]

/-- C4 witness: the theorem instantiated on the sample filesystem, in
which a stale packages backup exists and both removals succeed. -/
theorem move_packages_to_backup_dirs_spec_witness :
    ∃ fs2, move_packages_to_backup_dirs sampleEnv true true sampleFS = .ok fs2 ∧
      fs2 (packages_bak_path sampleEnv) =
        (if (sampleFS (packages_bak_path sampleEnv)).isSome = true ∧ true = false
         then sampleFS (packages_bak_path sampleEnv)
         else sampleFS sampleEnv.packages_path) ∧
      fs2 (installed_packages_bak_path sampleEnv) =
        (if (sampleFS (installed_packages_bak_path sampleEnv)).isSome = true
            ∧ true = false
         then sampleFS (installed_packages_bak_path sampleEnv)
         else sampleFS sampleEnv.installed_packages_path) ∧
      ∀ q, q ≠ packages_bak_path sampleEnv →
        q ≠ installed_packages_bak_path sampleEnv → fs2 q = sampleFS q :=
  move_packages_to_backup_dirs_spec sampleEnv true true sampleFS
    (by decide) (by decide) (by decide) (by decide) (by decide)

end Sublimall
namespace Sublimall

theorem getLast?_mem_of_eq {α : Type} {l : List α} {a : α}
    (h : l.getLast? = some a) : a ∈ l := by
  have hx := List.mem_getLast?_eq_getLast (l := l) (x := a) (by rw [h]; rfl)
  obtain ⟨hne2, rfl⟩ := hx
  exact List.getLast_mem hne2

theorem splitSlash_no_slash (l : PyStr) (h : '/' ∉ l) : splitSlash l = [l] := by
  induction l with
  | nil => rfl
  | cons c cs ih =>
    have hc : c ≠ '/' := by
      intro hh
      exact h (by rw [hh]; exact List.mem_cons_self _ _)
    have hcs : '/' ∉ cs := fun hh => h (List.mem_cons_of_mem c hh)
    simp only [splitSlash, ih hcs]
    rw [if_neg hc]
    simp

theorem splitSlash_append (l1 l2 : PyStr) (h : '/' ∉ l1) :
    splitSlash (l1 ++ '/' :: l2) = l1 :: splitSlash l2 := by
  induction l1 with
  | nil => simp [splitSlash]
  | cons c cs ih =>
    have hc : c ≠ '/' := by
      intro hh
      exact h (by rw [hh]; exact List.mem_cons_self _ _)
    have hcs : '/' ∉ cs := fun hh => h (List.mem_cons_of_mem c hh)
    rw [List.cons_append]
    simp only [splitSlash]
    rw [ih hcs, if_neg hc]
    simp

theorem splitSlash_intercalate (comps : List PyStr) (l2 : PyStr)
    (hc : comps ≠ []) (h : ∀ c ∈ comps, '/' ∉ c) :
    splitSlash (intercalateSlash comps ++ '/' :: l2) = comps ++ splitSlash l2 := by
  induction comps with
  | nil => exact absurd rfl hc
  | cons a rest ih =>
    cases rest with
    | nil =>
      simp only [intercalateSlash]
      rw [splitSlash_append a l2 (h a (by simp))]
      rfl
    | cons b rest2 =>
      have hstep : intercalateSlash (a :: b :: rest2) =
          a ++ '/' :: intercalateSlash (b :: rest2) := rfl
      rw [hstep, List.append_assoc, List.cons_append]
      rw [splitSlash_append a _ (h a (by simp))]
      rw [ih (by simp) (fun c hcc => h c (List.mem_cons_of_mem a hcc))]
      rfl

theorem normLoop_append (hs : Bool) (l1 l2 acc : List PyStr) :
    normLoop hs acc (l1 ++ l2) = normLoop hs (normLoop hs acc l1) l2 := by
  induction l1 generalizing acc with
  | nil => rfl
  | cons c cs ih =>
    by_cases hc1 : c = [] ∨ c = ['.']
    · simp only [List.cons_append, normLoop, if_pos hc1]
      exact ih acc
    · by_cases hc2 : c ≠ ['.', '.'] ∨ (hs = false ∧ acc = [])
          ∨ (acc ≠ [] ∧ acc.getLast? = some ['.', '.'])
      · simp only [List.cons_append, normLoop, if_neg hc1, if_pos hc2]
        exact ih _
      · by_cases hc3 : acc ≠ []
        · simp only [List.cons_append, normLoop, if_neg hc1, if_neg hc2, if_pos hc3]
          exact ih _
        · simp only [List.cons_append, normLoop, if_neg hc1, if_neg hc2, if_neg hc3]
          exact ih _

theorem normLoop_push_all (hs : Bool) (comps : List PyStr) (acc : List PyStr)
    (h : ∀ c ∈ comps, c ≠ [] ∧ c ≠ ['.'] ∧ c ≠ ['.', '.']) :
    normLoop hs acc comps = acc ++ comps := by
  induction comps generalizing acc with
  | nil => simp [normLoop]
  | cons c cs ih =>
    obtain ⟨hc1, hc2, hc3⟩ := h c (by simp)
    simp only [normLoop, if_neg (not_or.mpr ⟨hc1, hc2⟩), if_pos (Or.inl hc3)]
    rw [ih _ (fun x hx => h x (List.mem_cons_of_mem c hx))]
    simp

theorem normLoop_dotdot (acc : List PyStr)
    (h : acc.getLast? ≠ some ['.', '.']) :
    normLoop true acc [['.', '.']] = acc.dropLast := by
  have hfirst : ¬ ((['.', '.'] : PyStr) = [] ∨ (['.', '.'] : PyStr) = ['.']) := by
    decide
  have hsecond : ¬ ((['.', '.'] : PyStr) ≠ ['.', '.'] ∨ (true = false ∧ acc = [])
      ∨ (acc ≠ [] ∧ acc.getLast? = some ['.', '.'])) := by
    simp [h]
  by_cases ha : acc = []
  · subst ha
    simp only [normLoop, if_neg hfirst, if_neg hsecond]
    simp
  · simp only [normLoop, if_neg hfirst, if_neg hsecond, if_pos ha]

theorem intercalateSlash_ne_nil (comps : List PyStr) (hc : comps ≠ [])
    (h : ∀ c ∈ comps, c ≠ []) : intercalateSlash comps ≠ [] := by
  cases comps with
  | nil => exact absurd rfl hc
  | cons a rest =>
    cases rest with
    | nil => exact h a (by simp)
    | cons b r2 =>
      simp only [intercalateSlash]
      simp

theorem intercalateSlash_getLast (comps : List PyStr) :
    comps ≠ [] → (∀ c ∈ comps, c ≠ []) → (∀ c ∈ comps, '/' ∉ c) →
    (intercalateSlash comps).getLast? ≠ some '/' := by
  induction comps with
  | nil => intro hc _ _; exact absurd rfl hc
  | cons a rest ih =>
    intro _ hne hs
    cases rest with
    | nil =>
      intro hlast
      exact hs a (by simp) (getLast?_mem_of_eq hlast)
    | cons b r2 =>
      have hic2 : intercalateSlash (b :: r2) ≠ [] :=
        intercalateSlash_ne_nil (b :: r2) (by simp)
          (fun c hcc => hne c (List.mem_cons_of_mem a hcc))
      obtain ⟨c2, rest2, hc2⟩ := List.exists_cons_of_ne_nil hic2
      have hstep : intercalateSlash (a :: b :: r2) =
          a ++ '/' :: intercalateSlash (b :: r2) := rfl
      rw [hstep, List.getLast?_append_of_ne_nil a (by simp), hc2,
        List.getLast?_cons_cons, ← hc2]
      exact ih (by simp) (fun c hcc => hne c (List.mem_cons_of_mem a hcc))
        (fun c hcc => hs c (List.mem_cons_of_mem a hcc))

end Sublimall

namespace Sublimall

theorem normLoop_cons_empty (hs : Bool) (acc : List PyStr) (Z : List PyStr) :
    normLoop hs acc (([] : PyStr) :: Z) = normLoop hs acc Z := by
  simp only [normLoop]
  simp

theorem get_output_dir_parent (e : Env) (comps : List PyStr)
    (hc : comps ≠ [])
    (hgood : ∀ c ∈ comps, c ≠ [] ∧ '/' ∉ c ∧ c ≠ ['.'] ∧ c ≠ ['.', '.'])
    (hpp : e.packages_path = '/' :: intercalateSlash comps) :
    get_output_dir e = '/' :: intercalateSlash comps.dropLast := by
  have hne : ∀ c ∈ comps, c ≠ [] := fun c h => (hgood c h).1
  have hslash : ∀ c ∈ comps, '/' ∉ c := fun c h => (hgood c h).2.1
  have hhead : ((directory_list e).map Prod.fst).headD [] = e.packages_path := by
    simp only [directory_list]
    split <;> simp
  rw [get_output_dir, hhead, hpp]
  have hlast : endsWithSlash ('/' :: intercalateSlash comps) = false := by
    have h1 : intercalateSlash comps ≠ [] := intercalateSlash_ne_nil comps hc hne
    obtain ⟨c2, r2, hc2⟩ := List.exists_cons_of_ne_nil h1
    have h2 : ('/' :: intercalateSlash comps).getLast? =
        (intercalateSlash comps).getLast? := by
      rw [hc2, List.getLast?_cons_cons]
    simp only [endsWithSlash, h2]
    rw [beq_eq_false_iff_ne]
    exact intercalateSlash_getLast comps hc hne hslash
  have hjoin : pjoin ('/' :: intercalateSlash comps) (str "..") =
      '/' :: (intercalateSlash comps ++ '/' :: ['.', '.']) := by
    simp only [pjoin]
    rw [if_neg (by decide : ¬ (isabs (str "..") = true))]
    rw [if_neg (not_or.mpr ⟨List.cons_ne_nil _ _, by simp [hlast]⟩)]
    rfl
  rw [hjoin]
  have habs : isabs ('/' :: (intercalateSlash comps ++ '/' :: ['.', '.'])) = true := rfl
  simp only [abspath]
  rw [if_pos habs]
  obtain ⟨c1, rest, rfl⟩ := List.exists_cons_of_ne_nil hc
  obtain ⟨ch, c1t, rfl⟩ := List.exists_cons_of_ne_nil (hne _ (List.mem_cons_self _ _))
  have hch : ch ≠ '/' := by
    intro hh
    exact hslash _ (List.mem_cons_self _ _) (by rw [hh]; exact List.mem_cons_self _ _)
  have hict : ∃ t, intercalateSlash ((ch :: c1t) :: rest) = ch :: t := by
    cases rest with
    | nil => exact ⟨c1t, rfl⟩
    | cons b r2 => exact ⟨c1t ++ '/' :: intercalateSlash (b :: r2), rfl⟩
  obtain ⟨t, ht⟩ := hict
  have hpfx : ((str "//").isPrefixOf
      ('/' :: (intercalateSlash ((ch :: c1t) :: rest) ++ '/' :: ['.', '.']))) = false := by
    rw [ht]
    have hlit : str "//" = ['/', '/'] := rfl
    have hch2 : ¬ ('/' = ch) := fun hh => hch hh.symm
    rw [hlit]
    simp [List.isPrefixOf, hch2]
  have hsplit : splitSlash
      ('/' :: (intercalateSlash ((ch :: c1t) :: rest) ++ '/' :: ['.', '.'])) =
      [] :: (((ch :: c1t) :: rest) ++ [['.', '.']]) := by
    have h1 : splitSlash
        ('/' :: (intercalateSlash ((ch :: c1t) :: rest) ++ '/' :: ['.', '.'])) =
        [] :: splitSlash (intercalateSlash ((ch :: c1t) :: rest) ++ '/' :: ['.', '.']) := by
      simp [splitSlash]
    rw [h1, splitSlash_intercalate _ _ (by simp) hslash]
    rfl
  have hloop : normLoop true []
      (([] : PyStr) :: (ch :: c1t) :: (rest ++ [['.', '.']])) =
      ((ch :: c1t) :: rest).dropLast := by
    rw [normLoop_cons_empty, ← List.cons_append, normLoop_append]
    rw [normLoop_push_all true _ []
      (fun c hm => ⟨(hgood c hm).1, (hgood c hm).2.2.1, (hgood c hm).2.2.2⟩)]
    rw [List.nil_append]
    refine normLoop_dotdot _ ?_
    intro hl
    exact (hgood _ (getLast?_mem_of_eq hl)).2.2.2 rfl
  have hdec : (decide ¬((1 : Nat) = 0)) = true := rfl
  simp [normpath, habs, hpfx, hsplit, hloop, hdec]

end Sublimall

namespace Sublimall

/-- C7: for every `unpack_packages` call with `output_dir=None` on a
normalized absolute packages path, the extraction target is the parent
directory of the packages path, and the extract command line is, in
order: the archiver binary path, 'x', '-tzip', '-y', '-o<output_dir>',
the '-p<password>' flag exactly when a password was given, then the
input file. -/
theorem unpack_default_output_dir (e : Env) (exec : List PyStr → Int)
    (input_file : PyStr) (password : Option PyStr) (bin : PyStr)
    (comps : List PyStr) (hbin : e.zip_bin = some bin) (hc : comps ≠ [])
    (hgood : ∀ c ∈ comps, c ≠ [] ∧ '/' ∉ c ∧ c ≠ ['.'] ∧ c ≠ ['.', '.'])
    (hpp : e.packages_path = '/' :: intercalateSlash comps) :
    unpack_packages e exec input_file none password =
      .ok ([bin, str "x", str "-tzip", str "-y",
          str "-o" ++ ('/' :: intercalateSlash comps.dropLast)]
        ++ password_args password ++ [input_file],
        exec ([bin, str "x", str "-tzip", str "-y",
          str "-o" ++ ('/' :: intercalateSlash comps.dropLast)]
        ++ password_args password ++ [input_file]),
        none) := by
  simp only [unpack_packages]
  rw [get_output_dir_parent e comps hc hgood hpp]
  rw [run_executable_x e exec password _ bin input_file _ hbin rfl rfl]

/-- C7 witness: extracting with the default output directory on
`/home/u/Packages` targets `/home/u`. -/
theorem unpack_default_output_dir_witness :
    unpack_packages sampleEnv sampleExec (str "/tmp/in.zip") none none =
      .ok ([str "/opt/7za", str "x", str "-tzip", str "-y",
          str "-o" ++ ('/' :: intercalateSlash
            ([str "home", str "u", str "Packages"]).dropLast)]
        ++ password_args none ++ [str "/tmp/in.zip"],
        sampleExec ([str "/opt/7za", str "x", str "-tzip", str "-y",
          str "-o" ++ ('/' :: intercalateSlash
            ([str "home", str "u", str "Packages"]).dropLast)]
        ++ password_args none ++ [str "/tmp/in.zip"]),
        none) :=
  unpack_default_output_dir sampleEnv sampleExec (str "/tmp/in.zip") none
    (str "/opt/7za") [str "home", str "u", str "Packages"] rfl (by decide)
    (by decide) rfl

end Sublimall
